import Mathlib

/-!
# The read-dispatch-execute loop of the shell (`main.go`)

A shallow embedding of `main.go`.  Go strings are lists of runes, an `error`
is the text of its message, and everything the program obtains from outside
(the operating system, the two writers, the input reader, the `builtins`
package, the order in which a `range` over a map visits its entries) is an
oracle collected in `Env`.  The effects of the program are recorded in a
`World`: the payload of every `Write` on the two writers, the number of lines
requested from the reader, and the calls made to the collaborators.
-/

namespace Shell

/-- A Go `string`, as the list of its runes. -/
abbrev GoString := List Char

/-- A non-nil Go `error`, as the text `err.Error()` returns. -/
abbrev GoError := List Char

/-! ## `strings` and `unicode` -/

/-- The predicate `unicode.IsSpace`: the Latin-1 spaces `\t \n \v \f \r`, space, U+0085, U+00A0
and the other code points with the `White_Space` property. -/
def isSpace (c : Char) : Bool :=
  (9 ≤ c.toNat && c.toNat ≤ 13) || c.toNat = 0x20 || c.toNat = 0x85 || c.toNat = 0xA0
    || c.toNat = 0x1680 || (0x2000 ≤ c.toNat && c.toNat ≤ 0x200a)
    || c.toNat = 0x2028 || c.toNat = 0x2029 || c.toNat = 0x202f
    || c.toNat = 0x205f || c.toNat = 0x3000

/-- The call `strings.TrimLeftFunc(s, unicode.IsSpace)`. -/
def TrimLeft (s : GoString) : GoString := s.dropWhile isSpace

/-- The call `strings.TrimRightFunc(s, unicode.IsSpace)`. -/
def TrimRight (s : GoString) : GoString := (s.reverse.dropWhile isSpace).reverse

/-- The function `strings.TrimSpace`: the slice of `s` between its first and its last
rune that is not white space. -/
def TrimSpace (s : GoString) : GoString := TrimRight (TrimLeft s)

/-- The call `strings.Split(s, sep)` for a separator of one rune: the pieces of `s`
between the occurrences of `sep`; there is always at least one piece. -/
def Split (s : GoString) (sep : Char) : List GoString :=
  match s with
  | [] => [[]]
  | c :: cs =>
    if c = sep then [] :: Split cs sep
    else
      match Split cs sep with
      | [] => [[c]]
      | t :: ts => (c :: t) :: ts

/-- The call `strings.Join(elems, sep)`. -/
def Join (elems : List GoString) (sep : GoString) : GoString :=
  match elems with
  | [] => []
  | [a] => a
  | a :: b :: rest => a ++ sep ++ Join (b :: rest) sep

/-- The verb `%v` applied to a `uint64`: its decimal digits. -/
def fmtUint (n : Nat) : GoString := Nat.toDigits 10 n

/-! ## The data of `main.go` -/

/-- The map `commandHelp`, as the list of its entries in the order of the
source text (the keys are pairwise distinct). -/
def commandHelp : List (GoString × GoString) :=
  [ ("cd".toList, "Change the current working directory".toList),
    ("env".toList, "Display or modify environment variables".toList),
    ("exit".toList, "Exit the shell".toList),
    ("ls".toList, "List files in the current directory".toList),
    ("pwd".toList, "Print the current working directory".toList),
    ("alloc".toList, "Display information about memory allocation".toList),
    ("echo".toList, "Print arguments to the standard output".toList),
    ("help".toList, "Display information about available commands".toList) ]

/-- The keys of `commandHelp`. -/
def commandNames : List GoString := commandHelp.map Prod.fst

/-- A call made to a collaborator outside `main.go`. -/
inductive Event where
  | userCurrent
  | getwd
  | openDir
  | readdir
  | closeDir
  | virtualMemory
  | changeDirectory (args : List GoString)
  | environmentVariables (args : List GoString)
  | run (name : GoString) (args : List GoString)
  deriving DecidableEq

/-- What the program has done so far.  The writers `w` and `errW` are two
different writers, as in `main`, where they are `os.Stdout` and `os.Stderr`. -/
structure World where
  /-- The calls made to the collaborators, oldest first. -/
  log : List Event
  /-- The number of `ReadString` calls made on the input reader. -/
  reads : Nat
  /-- The payloads of the `Write` calls on the writer `w`, oldest first. -/
  out : List GoString
  /-- The payloads of the `Write` calls on the writer `errW`, oldest first. -/
  errOut : List GoString
  deriving DecidableEq

/-- The surroundings of the program.  An oracle of the operating system is
indexed by the number of collaborator calls made before it, a writer by the
number of writes it received before, the reader by the number of lines read
before; so the answers may change in any way during a run. -/
structure Env where
  /-- The call `user.Current()`: the field `Username`, or an error. -/
  userCurrent : Nat → Except GoError GoString
  /-- The call `os.Getwd()`. -/
  getwd : Nat → Except GoError GoString
  /-- The call `os.Open(".")`: its error, if any. -/
  openDir : Nat → Option GoError
  /-- The call `dir.Readdir(-1)`: the names of the entries, and its error, if any. -/
  readdir : Nat → List GoString × Option GoError
  /-- The call `mem.VirtualMemory()`: the fields `Total` and `Free`, or an error. -/
  virtualMemory : Nat → Except GoError (Nat × Nat)
  /-- The function `builtins.ChangeDirectory`, defined outside `main.go`: its error, if any. -/
  changeDirectory : Nat → List GoString → Option GoError
  /-- The function `builtins.EnvironmentVariables`, defined outside `main.go`:
  the payloads it writes to `w`, and its error, if any. -/
  environmentVariables : Nat → List GoString → List GoString × Option GoError
  /-- The call `exec.Command(name, arg...).Run()`: its error, if any. -/
  run : Nat → GoString → List GoString → Option GoError
  /-- The call `readLoop.ReadString('\n')`: the text returned and the error, if any. -/
  readString : Nat → GoString × Option GoError
  /-- The error returned by a `Write` on `w`, if any. -/
  write : Nat → Option GoError
  /-- The error returned by a `Write` on `errW`, if any. -/
  writeErr : Nat → Option GoError
  /-- The order in which `range commandHelp` visits the entries: each entry once. -/
  rangeOrder : Nat → { l : List (GoString × GoString) // l.Perm commandHelp }

/-- Record a call to a collaborator. -/
def World.call (s : World) (e : Event) : World :=
  { s with log := s.log ++ [e] }

/-- One `Write` of the payload `p` on the writer `w`, as `fmt.Fprint*` issues after
formatting: the new world and the error of the write. -/
def Fprint (env : Env) (s : World) (p : GoString) : World × Option GoError :=
  ({ s with out := s.out ++ [p] }, env.write s.out.length)

/-- One `Write` of the payload `p` on the writer `errW`. -/
def FprintErr (env : Env) (s : World) (p : GoString) : World × Option GoError :=
  ({ s with errOut := s.errOut ++ [p] }, env.writeErr s.errOut.length)

/-- The channel `exit` of type `chan struct{}`: its capacity and the number of
signals waiting in its buffer. -/
structure Chan where
  cap : Nat
  pending : Nat
  deriving DecidableEq

/-- The statement `exit <- struct{}{}` with no receiver waiting: it completes when
the buffer has room and blocks otherwise (`none`). -/
def Chan.send (c : Chan) : Option Chan :=
  if c.pending < c.cap then some { c with pending := c.pending + 1 } else none

/-- The case `<-exit` of a `select` with a `default`: taken when a signal is waiting. -/
def Chan.recv (c : Chan) : Option Chan :=
  if 0 < c.pending then some { c with pending := c.pending - 1 } else none

/-- The ways in which a call stops without returning. -/
inductive Halt where
  /-- Blocked for ever on a channel operation. -/
  | blocked
  /-- A run-time panic. -/
  | panic
  deriving DecidableEq

/-! ## The functions of `main.go` -/

/-- The function `printPrompt`. -/
def printPrompt (env : Env) (s : World) : World × Option GoError :=
  match env.userCurrent s.log.length with
  | .error e => (s.call .userCurrent, some e)
  | .ok username =>
    let s1 := s.call .userCurrent
    match env.getwd s1.log.length with
    | .error e => (s1.call .getwd, some e)
    | .ok wd => Fprint env (s1.call .getwd) (wd ++ " [".toList ++ username ++ "] $ ".toList)

/-- The function `listFiles`. -/
def listFiles (env : Env) (s : World) (_args : List GoString) : World × Option GoError :=
  match env.openDir s.log.length with
  | some e => (s.call .openDir, some e)
  | none =>
    let s1 := s.call .openDir
    match env.readdir s1.log.length with
    | (_, some e) => ((s1.call .readdir).call .closeDir, some e)
    | (fileInfos, none) =>
      let s2 := fileInfos.foldl
        (fun acc name => (Fprint env acc (name ++ "\t".toList)).1) (s1.call .readdir)
      let s3 := (Fprint env s2 "\n".toList).1
      (s3.call .closeDir, none)

/-- The function `printWorkingDirectory`. -/
def printWorkingDirectory (env : Env) (s : World) : World × Option GoError :=
  match env.getwd s.log.length with
  | .error e => (s.call .getwd, some e)
  | .ok wd => Fprint env (s.call .getwd) (wd ++ "\n".toList)

/-- The function `allocateMemory`. -/
def allocateMemory (env : Env) (s : World) (args : List GoString) : World × Option GoError :=
  if args.length ≠ 0 then (s, some "Usage: Alloc".toList)
  else
    match env.virtualMemory s.log.length with
    | .error e => (s.call .virtualMemory, some e)
    | .ok (total, free) =>
      Fprint env (s.call .virtualMemory)
        ("Total: ".toList ++ fmtUint total ++ ", Free: ".toList ++ fmtUint free ++ "\n".toList)

/-- The function `echo`. -/
def echo (env : Env) (s : World) (args : List GoString) : World × Option GoError :=
  Fprint env s (Join args " ".toList ++ "\n".toList)

/-- The format `"  %s: %s\n"` applied to the key and the value of an entry. -/
def helpLine (entry : GoString × GoString) : GoString :=
  "  ".toList ++ entry.1 ++ ": ".toList ++ entry.2 ++ "\n".toList

/-- The function `showHelp`. -/
def showHelp (env : Env) (s : World) (args : List GoString) : World × Option GoError :=
  match args with
  | [] =>
    let s1 := (Fprint env s "Available commands:\n".toList).1
    let s2 := (env.rangeOrder s.log.length).val.foldl
      (fun acc entry => (Fprint env acc (helpLine entry)).1) s1
    (s2, none)
  | cmd :: _ =>
    match commandHelp.lookup cmd with
    | some desc =>
      ((Fprint env s ("Help for ".toList ++ cmd ++ ":\n".toList ++ desc ++ "\n".toList)).1, none)
    | none =>
      ((Fprint env s ("Unknown command: ".toList ++ cmd ++ "\n".toList)).1, none)

/-- The function `executeCommand`. -/
def executeCommand (env : Env) (s : World) (name : GoString) (arg : List GoString) :
    World × Option GoError :=
  (s.call (.run name arg), env.run s.log.length name arg)

/-- The call `builtins.ChangeDirectory(args...)`. -/
def changeDirectory (env : Env) (s : World) (args : List GoString) : World × Option GoError :=
  (s.call (.changeDirectory args), env.changeDirectory s.log.length args)

/-- The call `builtins.EnvironmentVariables(w, args...)`. -/
def environmentVariables (env : Env) (s : World) (args : List GoString) :
    World × Option GoError :=
  let r := env.environmentVariables s.log.length args
  ({ s.call (.environmentVariables args) with out := s.out ++ r.1 }, r.2)

/-- A handler that has no access to the channel leaves it as it is. -/
def keep (exit : Chan) (r : World × Option GoError) : Except Halt (World × Chan × Option GoError) :=
  .ok (r.1, exit, r.2)

/-- The function `handleInput`: the new world, the channel and the error returned. -/
def handleInput (env : Env) (s : World) (input : GoString) (exit : Chan) :
    Except Halt (World × Chan × Option GoError) :=
  match Split (TrimSpace input) ' ' with
  | [] => .error .panic
  | name :: args =>
    if name = "cd".toList then keep exit (changeDirectory env s args)
    else if name = "env".toList then keep exit (environmentVariables env s args)
    else if name = "exit".toList then
      match exit.send with
      | none => .error .blocked
      | some c => .ok (s, c, none)
    else if name = "ls".toList then keep exit (listFiles env s args)
    else if name = "pwd".toList then keep exit (printWorkingDirectory env s)
    else if name = "alloc".toList then keep exit (allocateMemory env s args)
    else if name = "echo".toList then keep exit (echo env s args)
    else if name = "help".toList then keep exit (showHelp env s args)
    else keep exit (executeCommand env s name args)

/-- The state of `runLoop` at the head of its `for` loop. -/
structure Loop where
  world : World
  exit : Chan
  /-- The inputs passed to `handleInput` so far, oldest first. -/
  handled : List GoString
  deriving DecidableEq

/-- How one pass through the body of the `for` loop ends. -/
inductive Outcome where
  /-- The loop goes back to its `select`. -/
  | next (s : Loop)
  /-- The function `runLoop` has returned. -/
  | returned (s : Loop)
  /-- The pass never ends. -/
  | halted (h : Halt) (s : Loop)
  deriving DecidableEq

/-- One pass through the body of the `for` loop of `runLoop`. -/
def iteration (env : Env) (s : Loop) : Outcome :=
  match s.exit.recv with
  | some c =>
    .returned { s with
      exit := c, world := (Fprint env s.world "exiting gracefully...\n".toList).1 }
  | none =>
    match printPrompt env s.world with
    | (w1, some e) => .next { s with world := (FprintErr env w1 (e ++ "\n".toList)).1 }
    | (w1, none) =>
      let w2 := { w1 with reads := w1.reads + 1 }
      match env.readString w1.reads with
      | (_, some e) => .next { s with world := (FprintErr env w2 (e ++ "\n".toList)).1 }
      | (input, none) =>
        match handleInput env w2 input s.exit with
        | .error h => .halted h { s with world := w2, handled := s.handled ++ [input] }
        | .ok (w3, c, some e) =>
          .next { world := (FprintErr env w3 (e ++ "\n".toList)).1, exit := c,
                  handled := s.handled ++ [input] }
        | .ok (w3, c, none) =>
          .next { world := w3, exit := c, handled := s.handled ++ [input] }

/-- The function `runLoop`, followed for at most `fuel` passes of its loop:
`next s` when the loop is still running in state `s` after `fuel` passes. -/
def runLoop (env : Env) (fuel : Nat) (s : Loop) : Outcome :=
  match fuel with
  | 0 => .next s
  | n + 1 =>
    match iteration env s with
    | .next s1 => runLoop env n s1
    | o => o

/-- The world before the program has done anything. -/
def World.empty : World := { log := [], reads := 0, out := [], errOut := [] }

/-- The call `runLoop(r, w, errW, exit)` on entry, in the world `w0` and with
`exit` an empty channel of capacity `cap`. -/
def Loop.start (w0 : World) (cap : Nat) : Loop :=
  { world := w0, exit := { cap := cap, pending := 0 }, handled := [] }

/-- The text of the farewell, `fmt.Fprintln(w, "exiting gracefully...")`. -/
def farewell : GoString := "exiting gracefully...\n".toList

/-- A sample of surroundings for concrete runs: the input holds the lines `input`
and then ends, the directory holds the entries `names`, the user is known when
`userOk` holds, every write succeeds and no command can be run. -/
def sampleEnv (input names : List GoString) (userOk : Bool) : Env :=
  { userCurrent := fun _ =>
      if userOk then .ok "gopher".toList else .error "user: unknown userid 1000".toList
    getwd := fun _ => .ok "/home/gopher".toList
    openDir := fun _ => none
    readdir := fun _ => (names, none)
    virtualMemory := fun _ => .ok (17179869184, 8589934592)
    changeDirectory := fun _ _ => none
    environmentVariables := fun _ _ => ([], none)
    run := fun _ _ _ => some "exec: no command".toList
    readString := fun k =>
      match input.get? k with
      | some l => (l ++ "\n".toList, none)
      | none => ([], some "EOF".toList)
    write := fun _ => none
    writeErr := fun _ => none
    rangeOrder := fun _ => ⟨commandHelp, List.Perm.refl _⟩ }

/-- The command name `handleInput` finds in an input. -/
def commandName (input : GoString) : GoString :=
  (Split (TrimSpace input) ' ').headD []

/-- The arguments `handleInput` finds in an input. -/
def commandArgs (input : GoString) : List GoString :=
  (Split (TrimSpace input) ' ').tail

/-- Everything written to `w`, as one text. -/
def World.output (s : World) : GoString := s.out.flatten

/-- The calls `exec.Command(name, arg...).Run()` recorded in a log: the name and
the arguments of each. -/
def runs (log : List Event) : List (GoString × List GoString) :=
  log.filterMap fun e =>
    match e with
    | .run name arg => some (name, arg)
    | _ => none

/-- The text written to `w` between the world `before` and the later world `after`. -/
def written (before after : World) : GoString :=
  (after.out.drop before.out.length).flatten

/-- The lines of a text: its pieces between newlines, the piece after the last
newline left out. -/
def linesOf (text : GoString) : List GoString := (Split text '\n').dropLast

/-- An entry as `showHelp` lists it, without the newline: `  <name>: <description>`. -/
def helpEntry (entry : GoString × GoString) : GoString :=
  "  ".toList ++ entry.1 ++ ": ".toList ++ entry.2

/-- The runes that make up words: ASCII digits and letters. -/
def isWordRune (c : Char) : Bool :=
  (48 ≤ c.toNat && c.toNat ≤ 57) || (65 ≤ c.toNat && c.toNat ≤ 90)
    || (97 ≤ c.toNat && c.toNat ≤ 122)

/-- The words of a text after the pending word `cur` (kept reversed). -/
def wordsAux (cur : GoString) (text : GoString) : List GoString :=
  match text with
  | [] => if cur = [] then [] else [cur.reverse]
  | c :: cs =>
    if isWordRune c then wordsAux (c :: cur) cs
    else if cur = [] then wordsAux [] cs
    else cur.reverse :: wordsAux [] cs

/-- The words of a text: its longest runs of ASCII letters and digits, in order. -/
def wordsOf (text : GoString) : List GoString := wordsAux [] text

/-- The number of calls of `mem.VirtualMemory()` recorded in a log. -/
def memoryCalls (log : List Event) : Nat := log.count .virtualMemory

/-! ## Facts about `Split`, `Join` and `TrimSpace` -/

theorem Split_ne_nil (s : GoString) (sep : Char) : Split s sep ≠ [] := by
  induction s with
  | nil => simp [Split]
  | cons c cs ih =>
    unfold Split
    split
    · simp
    · split <;> simp

theorem Split_of_not_mem (a : GoString) (sep : Char) (h : sep ∉ a) : Split a sep = [a] := by
  induction a with
  | nil => simp [Split]
  | cons c cs ih =>
    have hc : ¬ c = sep := fun e => h (by simp [e])
    have hcs : sep ∉ cs := fun e => h (by simp [e])
    unfold Split
    rw [if_neg hc, ih hcs]

theorem Split_append_sep (a b : GoString) (sep : Char) (h : sep ∉ a) :
    Split (a ++ sep :: b) sep = a :: Split b sep := by
  induction a with
  | nil => simp [Split]
  | cons c cs ih =>
    have hc : ¬ c = sep := fun e => h (by simp [e])
    have hcs : sep ∉ cs := fun e => h (by simp [e])
    rw [List.cons_append]
    conv_lhs => unfold Split
    rw [if_neg hc, ih hcs]

theorem Join_Split (s : GoString) (sep : Char) : Join (Split s sep) [sep] = s := by
  induction s with
  | nil => simp [Split, Join]
  | cons c cs ih =>
    unfold Split
    split
    · rename_i hc
      cases hs : Split cs sep with
      | nil => exact absurd hs (Split_ne_nil cs sep)
      | cons t ts =>
        rw [hs] at ih
        simp [Join, ih, hc]
    · cases hs : Split cs sep with
      | nil => exact absurd hs (Split_ne_nil cs sep)
      | cons t ts =>
        rw [hs] at ih
        cases ts with
        | nil => simpa [Join] using ih
        | cons u us =>
          simp only [Join, List.cons_append] at ih ⊢
          rw [ih]

theorem Split_no_sep (s : GoString) (sep : Char) : ∀ t ∈ Split s sep, sep ∉ t := by
  induction s with
  | nil => simp [Split]
  | cons c cs ih =>
    unfold Split
    split
    · intro t ht
      rcases List.mem_cons.mp ht with rfl | ht
      · simp
      · exact ih t ht
    · rename_i hc
      cases hs : Split cs sep with
      | nil => exact absurd hs (Split_ne_nil cs sep)
      | cons u us =>
        rw [hs] at ih
        intro t ht
        rcases List.mem_cons.mp ht with rfl | ht
        · intro hmem
          rcases List.mem_cons.mp hmem with e | e
          · exact hc e.symm
          · exact ih u (by simp) e
        · exact ih t (by simp [ht])

theorem Split_Join (toks : List GoString) (sep : Char) (hne : toks ≠ [])
    (h : ∀ t ∈ toks, sep ∉ t) : Split (Join toks [sep]) sep = toks := by
  induction toks with
  | nil => exact absurd rfl hne
  | cons a rest ih =>
    cases rest with
    | nil => exact Split_of_not_mem a sep (h a (by simp))
    | cons b rest2 =>
      have hrec := ih (by simp) (fun t ht => h t (by simp [ht]))
      show Split (a ++ [sep] ++ Join (b :: rest2) [sep]) sep = _
      rw [List.append_assoc, List.singleton_append, Split_append_sep a _ sep (h a (by simp)),
        hrec]

theorem TrimRight_eq (s : GoString) : TrimRight s = s.rdropWhile isSpace := rfl

theorem TrimRight_append (a b : GoString) :
    TrimRight (a ++ b) = if TrimRight b = [] then TrimRight a else a ++ TrimRight b := by
  induction b using List.reverseRecOn with
  | nil => simp [TrimRight_eq]
  | append_singleton l x ih =>
    simp only [TrimRight_eq] at ih ⊢
    rw [← List.append_assoc, List.rdropWhile_concat, List.rdropWhile_concat]
    by_cases hx : isSpace x = true
    · simp only [hx, if_true]
      exact ih
    · simp [hx]

theorem TrimSpace_decomp (s : GoString) :
    ∃ l r, s = l ++ TrimSpace s ++ r ∧ (∀ c ∈ l, isSpace c = true) ∧
      (∀ c ∈ r, isSpace c = true) := by
  refine ⟨s.takeWhile isSpace, ((TrimLeft s).reverse.takeWhile isSpace).reverse, ?_, ?_, ?_⟩
  · have h1 : s = s.takeWhile isSpace ++ TrimLeft s := (List.takeWhile_append_dropWhile _ _).symm
    have h2 : TrimLeft s
        = TrimSpace s ++ ((TrimLeft s).reverse.takeWhile isSpace).reverse := by
      have := List.takeWhile_append_dropWhile isSpace (TrimLeft s).reverse
      have h3 := congrArg List.reverse this
      simp only [List.reverse_append, List.reverse_reverse] at h3
      exact h3.symm
    rw [List.append_assoc, ← h2]
    exact h1
  · intro c hc
    exact List.mem_takeWhile_imp hc
  · intro c hc
    exact List.mem_takeWhile_imp (List.mem_reverse.mp hc)

theorem TrimSpace_head (s : GoString) (c : Char) (h : (TrimSpace s).head? = some c) :
    isSpace c = false := by
  have hp : TrimSpace s <+: TrimLeft s := List.rdropWhile_prefix isSpace (TrimLeft s)
  obtain ⟨t, ht⟩ := hp
  cases hts : TrimSpace s with
  | nil => rw [hts] at h; simp at h
  | cons d ds =>
    rw [hts] at h ht
    simp only [List.head?_cons, Option.some.injEq] at h
    subst h
    have hne : TrimLeft s ≠ [] := by rw [← ht]; simp
    have := List.head_dropWhile_not isSpace s hne
    have hd : (TrimLeft s).head hne = d := by
      simp only [← ht, List.cons_append, List.head_cons]
    rw [← hd]
    simpa [TrimLeft] using this

theorem TrimSpace_getLast (s : GoString) (c : Char) (h : (TrimSpace s).getLast? = some c) :
    isSpace c = false := by
  have hne : TrimSpace s ≠ [] := by
    intro e; rw [e] at h; simp at h
  have := List.rdropWhile_last_not isSpace (TrimLeft s) hne
  rw [List.getLast?_eq_getLast _ hne] at h
  simp only [Option.some.injEq] at h
  rw [← h]
  simpa [TrimSpace, TrimRight_eq] using this

/-! ## Facts about the dispatch of `handleInput` -/

theorem Split_eq_name_args (line : GoString) :
    Split (TrimSpace line) ' ' = commandName line :: commandArgs line := by
  unfold commandName commandArgs
  cases h : Split (TrimSpace line) ' ' with
  | nil => exact absurd h (Split_ne_nil _ _)
  | cons a as => rfl

theorem handleInput_cd (env : Env) (s : World) (line : GoString) (exit : Chan)
    (h : commandName line = "cd".toList) :
    handleInput env s line exit = keep exit (changeDirectory env s (commandArgs line)) := by
  unfold handleInput
  rw [Split_eq_name_args, h]
  rfl

theorem handleInput_env (env : Env) (s : World) (line : GoString) (exit : Chan)
    (h : commandName line = "env".toList) :
    handleInput env s line exit = keep exit (environmentVariables env s (commandArgs line)) := by
  unfold handleInput
  rw [Split_eq_name_args, h]
  rfl

theorem handleInput_exit (env : Env) (s : World) (line : GoString) (exit : Chan)
    (h : commandName line = "exit".toList) :
    handleInput env s line exit =
      match exit.send with
      | none => .error .blocked
      | some c => .ok (s, c, none) := by
  unfold handleInput
  rw [Split_eq_name_args, h]
  rfl

theorem handleInput_ls (env : Env) (s : World) (line : GoString) (exit : Chan)
    (h : commandName line = "ls".toList) :
    handleInput env s line exit = keep exit (listFiles env s (commandArgs line)) := by
  unfold handleInput
  rw [Split_eq_name_args, h]
  rfl

theorem handleInput_pwd (env : Env) (s : World) (line : GoString) (exit : Chan)
    (h : commandName line = "pwd".toList) :
    handleInput env s line exit = keep exit (printWorkingDirectory env s) := by
  unfold handleInput
  rw [Split_eq_name_args, h]
  rfl

theorem handleInput_alloc (env : Env) (s : World) (line : GoString) (exit : Chan)
    (h : commandName line = "alloc".toList) :
    handleInput env s line exit = keep exit (allocateMemory env s (commandArgs line)) := by
  unfold handleInput
  rw [Split_eq_name_args, h]
  rfl

theorem handleInput_echo (env : Env) (s : World) (line : GoString) (exit : Chan)
    (h : commandName line = "echo".toList) :
    handleInput env s line exit = keep exit (echo env s (commandArgs line)) := by
  unfold handleInput
  rw [Split_eq_name_args, h]
  rfl

theorem handleInput_help (env : Env) (s : World) (line : GoString) (exit : Chan)
    (h : commandName line = "help".toList) :
    handleInput env s line exit = keep exit (showHelp env s (commandArgs line)) := by
  unfold handleInput
  rw [Split_eq_name_args, h]
  rfl

theorem handleInput_other (env : Env) (s : World) (line : GoString) (exit : Chan)
    (h : commandName line ∉ commandNames) :
    handleInput env s line exit
      = keep exit (executeCommand env s (commandName line) (commandArgs line)) := by
  unfold handleInput
  rw [Split_eq_name_args]
  simp only [commandNames, commandHelp, List.map_cons, List.map_nil, List.mem_cons,
    List.mem_singleton, List.not_mem_nil, or_false, not_or] at h
  obtain ⟨h1, h2, h3, h4, h5, h6, h7, h8⟩ := h
  simp only [if_neg h1, if_neg h2, if_neg h3, if_neg h4, if_neg h5, if_neg h6, if_neg h7,
    if_neg h8]

theorem TrimSpace_echo (rest : GoString) :
    TrimSpace ("echo ".toList ++ rest)
      = if TrimRight rest = [] then "echo".toList else "echo ".toList ++ TrimRight rest := by
  have h1 : TrimLeft ("echo ".toList ++ rest) = "echo ".toList ++ rest := by
    have he : isSpace 'e' = false := by decide
    show List.dropWhile isSpace ('e' :: ("cho ".toList ++ rest)) = _
    rw [List.dropWhile_cons, he]
    rfl
  unfold TrimSpace
  rw [h1, TrimRight_append]
  rfl

theorem handleInput_echo_trimmed (env : Env) (s : World) (exit : Chan)
    (line rest : GoString) (h : TrimSpace line = "echo ".toList ++ rest) :
    handleInput env s line exit
      = .ok ({ s with out := s.out ++ [rest ++ "\n".toList] }, exit, env.write s.out.length) := by
  have hs : Split (TrimSpace line) ' ' = "echo".toList :: Split rest ' ' := by
    rw [h]
    exact Split_append_sep "echo".toList rest ' ' (by decide)
  have hn : commandName line = "echo".toList := by simp [commandName, hs]
  have ha : commandArgs line = Split rest ' ' := by simp [commandArgs, hs]
  rw [handleInput_echo env s line exit hn, ha]
  have hj : Join (Split rest ' ') " ".toList = rest := Join_Split rest ' '
  simp only [keep, echo, Fprint, hj]

theorem handleInput_echo_rest (env : Env) (s : World) (exit : Chan) (rest : GoString) :
    handleInput env s ("echo ".toList ++ rest) exit
      = .ok ({ s with out := s.out ++ [TrimRight rest ++ "\n".toList] }, exit,
          env.write s.out.length) := by
  by_cases hr : TrimRight rest = []
  · have ht : TrimSpace ("echo ".toList ++ rest) = "echo".toList := by
      rw [TrimSpace_echo, if_pos hr]
    have hn : commandName ("echo ".toList ++ rest) = "echo".toList := by
      unfold commandName; rw [ht]; rfl
    have ha : commandArgs ("echo ".toList ++ rest) = [] := by
      unfold commandArgs; rw [ht]; rfl
    rw [handleInput_echo env s _ exit hn, ha, hr]
    rfl
  · have ht : TrimSpace ("echo ".toList ++ rest) = "echo ".toList ++ TrimRight rest := by
      rw [TrimSpace_echo, if_neg hr]
    exact handleInput_echo_trimmed env s exit _ _ ht

/-! ## Facts about the handlers -/

theorem foldl_Fprint {α : Type} (env : Env) (f : α → GoString) (l : List α) (s : World) :
    l.foldl (fun acc x => (Fprint env acc (f x)).1) s = { s with out := s.out ++ l.map f } := by
  induction l generalizing s with
  | nil => simp
  | cons x xs ih =>
    rw [List.foldl_cons, ih]
    simp [Fprint]

theorem showHelp_nil (env : Env) (s : World) :
    showHelp env s [] =
      ({ s with out := s.out ++
          "Available commands:\n".toList :: (env.rangeOrder s.log.length).val.map helpLine },
        none) := by
  simp only [showHelp, foldl_Fprint]
  simp [Fprint]

theorem lookup_of_mem (cmd desc : GoString) (h : (cmd, desc) ∈ commandHelp) :
    commandHelp.lookup cmd = some desc := by
  simp only [commandHelp, List.mem_cons, Prod.mk.injEq, List.mem_singleton, List.not_mem_nil,
    or_false] at h
  rcases h with ⟨rfl, rfl⟩ | ⟨rfl, rfl⟩ | ⟨rfl, rfl⟩ | ⟨rfl, rfl⟩ | ⟨rfl, rfl⟩ | ⟨rfl, rfl⟩ |
    ⟨rfl, rfl⟩ | ⟨rfl, rfl⟩ <;> rfl

theorem lookup_of_not_mem (cmd : GoString) (h : cmd ∉ commandNames) :
    commandHelp.lookup cmd = none := by
  simp only [commandNames, commandHelp, List.map_cons, List.map_nil, List.mem_cons,
    List.mem_singleton, List.not_mem_nil, or_false, not_or] at h
  obtain ⟨h1, h2, h3, h4, h5, h6, h7, h8⟩ := h
  simp only [commandHelp, List.lookup, beq_eq_false_iff_ne.mpr h1, beq_eq_false_iff_ne.mpr h2,
    beq_eq_false_iff_ne.mpr h3, beq_eq_false_iff_ne.mpr h4, beq_eq_false_iff_ne.mpr h5,
    beq_eq_false_iff_ne.mpr h6, beq_eq_false_iff_ne.mpr h7, beq_eq_false_iff_ne.mpr h8]

theorem listFiles_ok (env : Env) (s : World) (args names : List GoString)
    (ho : env.openDir s.log.length = none)
    (hr : env.readdir (s.log.length + 1) = (names, none)) :
    listFiles env s args =
      ({ s with
          log := s.log ++ [.openDir, .readdir, .closeDir]
          out := s.out ++ (names.map (fun name => name ++ "\t".toList) ++ ["\n".toList]) },
        none) := by
  have hr1 : env.readdir (s.call .openDir).log.length = (names, none) := by
    simpa [World.call] using hr
  simp only [listFiles, ho, hr1, foldl_Fprint]
  simp [Fprint, World.call]

/-! ## Facts about the loop -/

theorem handleInput_chan (env : Env) (s : World) (line : GoString) (exit : Chan)
    (w : World) (c : Chan) (e : Option GoError)
    (h : handleInput env s line exit = .ok (w, c, e)) :
    c = exit ∨ (commandName line = "exit".toList ∧ exit.send = some c ∧ w = s ∧ e = none) := by
  unfold handleInput at h
  rw [Split_eq_name_args] at h
  simp only at h
  split_ifs at h with h1 h2 h3 h4 h5 h6 h7 h8
  all_goals first
    | (simp only [keep, Except.ok.injEq, Prod.mk.injEq] at h; exact Or.inl h.2.1.symm)
    | skip
  right
  cases hs : exit.send with
  | none => rw [hs] at h; simp at h
  | some c1 =>
    rw [hs] at h
    simp only [Except.ok.injEq, Prod.mk.injEq] at h
    exact ⟨h3, by rw [h.2.1], h.1.symm, h.2.2.symm⟩

theorem handleInput_no_panic (env : Env) (s : World) (line : GoString) (exit : Chan) :
    handleInput env s line exit ≠ .error .panic := by
  unfold handleInput
  rw [Split_eq_name_args]
  simp only
  split_ifs
  all_goals first
    | (simp only [keep]; intro h; cases h)
    | skip
  cases exit.send <;> simp

theorem handleInput_blocked (env : Env) (s : World) (line : GoString) (exit : Chan)
    (h : handleInput env s line exit = .error .blocked) :
    commandName line = "exit".toList ∧ exit.send = none := by
  unfold handleInput at h
  rw [Split_eq_name_args] at h
  simp only at h
  split_ifs at h with h1 h2 h3 h4 h5 h6 h7 h8
  all_goals first
    | (simp only [keep] at h; cases h)
    | skip
  cases hs : exit.send with
  | none => exact ⟨h3, rfl⟩
  | some c1 => rw [hs] at h; cases h

theorem iteration_returned (env : Env) (s s1 : Loop) (h : iteration env s = .returned s1) :
    0 < s.exit.pending ∧
      s1 = { world := (Fprint env s.world farewell).1,
             exit := { s.exit with pending := s.exit.pending - 1 }, handled := s.handled } := by
  unfold iteration at h
  split at h
  · rename_i c hc
    unfold Chan.recv at hc
    split_ifs at hc with hp
    simp only [Option.some.injEq] at hc
    simp only [Outcome.returned.injEq] at h
    refine ⟨hp, ?_⟩
    rw [← h, ← hc]
    rfl
  · split at h
    · cases h
    · simp only at h
      split at h
      · cases h
      · split at h <;> cases h

theorem iteration_next (env : Env) (s s1 : Loop) (h : iteration env s = .next s1) :
    s.exit.pending = 0 ∧
      ((s1.handled = s.handled ∧ s1.exit = s.exit) ∨
        ∃ input, s1.handled = s.handled ++ [input] ∧
          (s1.exit = s.exit ∨
            (commandName input = "exit".toList ∧ s.exit.send = some s1.exit))) := by
  unfold iteration at h
  split at h
  · cases h
  · rename_i hc
    have hp : s.exit.pending = 0 := by
      unfold Chan.recv at hc
      split_ifs at hc with hp
      omega
    refine ⟨hp, ?_⟩
    split at h
    · simp only [Outcome.next.injEq] at h
      left
      rw [← h]
      exact ⟨rfl, rfl⟩
    · simp only at h
      split at h
      · simp only [Outcome.next.injEq] at h
        left
        rw [← h]
        exact ⟨rfl, rfl⟩
      · rename_i input _
        split at h
        · cases h
        · rename_i w3 c e hh
          simp only [Outcome.next.injEq] at h
          right
          refine ⟨input, by rw [← h], ?_⟩
          rcases handleInput_chan _ _ _ _ _ _ _ hh with hc1 | ⟨hn, hs, _, _⟩
          · left; rw [← h]; exact hc1
          · right; rw [← h]; exact ⟨hn, hs⟩
        · rename_i w3 c hh
          simp only [Outcome.next.injEq] at h
          right
          refine ⟨input, by rw [← h], ?_⟩
          rcases handleInput_chan _ _ _ _ _ _ _ hh with hc1 | ⟨hn, hs, _, _⟩
          · left; rw [← h]; exact hc1
          · right; rw [← h]; exact ⟨hn, hs⟩

theorem iteration_next_handled (env : Env) (s s1 : Loop) (h : iteration env s = .next s1) :
    (s1.handled = s.handled ∧ s1.exit = s.exit) ∨
      ∃ input w2 w3 e, s1.handled = s.handled ++ [input] ∧
        handleInput env w2 input s.exit = .ok (w3, s1.exit, e) := by
  unfold iteration at h
  split at h
  · cases h
  · split at h
    · simp only [Outcome.next.injEq] at h
      left
      rw [← h]
      exact ⟨rfl, rfl⟩
    · simp only at h
      split at h
      · simp only [Outcome.next.injEq] at h
        left
        rw [← h]
        exact ⟨rfl, rfl⟩
      · rename_i input _
        split at h
        · cases h
        · rename_i w3 c e hh
          simp only [Outcome.next.injEq] at h
          right
          exact ⟨input, _, w3, some e, by rw [← h], by rw [← h]; exact hh⟩
        · rename_i w3 c hh
          simp only [Outcome.next.injEq] at h
          right
          exact ⟨input, _, w3, none, by rw [← h], by rw [← h]; exact hh⟩

theorem iteration_halted (env : Env) (s s1 : Loop) (hl : Halt)
    (h : iteration env s = .halted hl s1) :
    hl = .blocked ∧ s.exit.pending = 0 ∧ s.exit.send = none := by
  unfold iteration at h
  split at h
  · cases h
  · rename_i hc
    have hp : s.exit.pending = 0 := by
      unfold Chan.recv at hc
      split_ifs at hc with hp
      omega
    split at h
    · cases h
    · simp only at h
      split at h
      · cases h
      · split at h
        · rename_i hl1 hh
          simp only [Outcome.halted.injEq] at h
          cases hl1 with
          | panic => exact absurd hh (handleInput_no_panic _ _ _ _)
          | blocked => exact ⟨h.1.symm, hp, (handleInput_blocked _ _ _ _ hh).2⟩
        · cases h
        · cases h

theorem printPrompt_frame (env : Env) (w : World) :
    (printPrompt env w).1.reads = w.reads ∧ (printPrompt env w).1.errOut = w.errOut := by
  unfold printPrompt
  split
  · exact ⟨rfl, rfl⟩
  · simp only
    split
    · exact ⟨rfl, rfl⟩
    · exact ⟨rfl, rfl⟩

theorem iteration_prompt_error (env : Env) (s : Loop) (e : GoError)
    (hp : s.exit.pending = 0) (he : (printPrompt env s.world).2 = some e) :
    iteration env s
      = .next { s with
          world := (FprintErr env (printPrompt env s.world).1 (e ++ "\n".toList)).1 } := by
  have hr : s.exit.recv = none := by simp [Chan.recv, hp]
  cases hpp : printPrompt env s.world with
  | mk w1 r =>
    rw [hpp] at he
    simp only at he
    subst he
    simp only [iteration, hr, hpp]

theorem iteration_read_error (env : Env) (s : Loop) (t : GoString) (e : GoError)
    (hp : s.exit.pending = 0) (hprompt : (printPrompt env s.world).2 = none)
    (hread : env.readString s.world.reads = (t, some e)) :
    iteration env s
      = .next { s with
          world := (FprintErr env
            { (printPrompt env s.world).1 with reads := s.world.reads + 1 }
            (e ++ "\n".toList)).1 } := by
  have hr : s.exit.recv = none := by simp [Chan.recv, hp]
  have hf := (printPrompt_frame env s.world).1
  cases hpp : printPrompt env s.world with
  | mk w1 r =>
    rw [hpp] at hprompt hf
    simp only at hprompt hf
    subst hprompt
    simp only [iteration, hr, hpp, hread, hf]

theorem iteration_handle (env : Env) (s : Loop) (input : GoString)
    (hp : s.exit.pending = 0) (hprompt : (printPrompt env s.world).2 = none)
    (hread : env.readString s.world.reads = (input, none)) :
    iteration env s =
      match handleInput env { (printPrompt env s.world).1 with reads := s.world.reads + 1 }
          input s.exit with
      | .error h =>
        .halted h { s with
          world := { (printPrompt env s.world).1 with reads := s.world.reads + 1 }
          handled := s.handled ++ [input] }
      | .ok (w3, c, some e) =>
        .next { world := (FprintErr env w3 (e ++ "\n".toList)).1, exit := c,
                handled := s.handled ++ [input] }
      | .ok (w3, c, none) =>
        .next { world := w3, exit := c, handled := s.handled ++ [input] } := by
  have hr : s.exit.recv = none := by simp [Chan.recv, hp]
  have hf := (printPrompt_frame env s.world).1
  cases hpp : printPrompt env s.world with
  | mk w1 r =>
    rw [hpp] at hprompt hf
    simp only at hprompt hf
    subst hprompt
    simp only [iteration, hr, hpp, hread, hf]

theorem iteration_pending (env : Env) (s : Loop) (hp : 0 < s.exit.pending) :
    iteration env s
      = .returned { world := (Fprint env s.world farewell).1,
                    exit := { s.exit with pending := s.exit.pending - 1 },
                    handled := s.handled } := by
  simp only [iteration, Chan.recv, if_pos hp]
  rfl

theorem runLoop_returned_exit_handled (env : Env) (fuel : Nat) (s s1 : Loop)
    (hinv : 0 < s.exit.pending → ∃ line ∈ s.handled, commandName line = "exit".toList)
    (h : runLoop env fuel s = .returned s1) :
    ∃ line ∈ s1.handled, commandName line = "exit".toList := by
  induction fuel generalizing s with
  | zero => simp [runLoop] at h
  | succ n ih =>
    unfold runLoop at h
    cases hi : iteration env s with
    | returned s2 =>
      rw [hi] at h
      simp only [Outcome.returned.injEq] at h
      obtain ⟨hpos, hs2⟩ := iteration_returned env s s2 hi
      obtain ⟨line, hl, hn⟩ := hinv hpos
      refine ⟨line, ?_, hn⟩
      rw [← h, hs2]
      exact hl
    | halted hl s2 =>
      rw [hi] at h
      cases h
    | next s2 =>
      rw [hi] at h
      simp only at h
      apply ih s2 _ h
      intro hpos
      obtain ⟨hp0, hcases⟩ := iteration_next env s s2 hi
      rcases hcases with ⟨_, he⟩ | ⟨input, hh, he⟩
      · rw [he] at hpos; omega
      · rcases he with he | ⟨hn, _⟩
        · rw [he] at hpos; omega
        · exact ⟨input, by rw [hh]; simp, hn⟩

theorem send_of_room (c : Chan) (h : c.pending < c.cap) :
    c.send = some { c with pending := c.pending + 1 } := by
  simp [Chan.send, h]

theorem iteration_invariant (env : Env) (s : Loop) (hc : 1 ≤ s.exit.cap)
    (hp : s.exit.pending ≤ 1) :
    (∀ h s1, iteration env s ≠ .halted h s1) ∧
      (∀ s1, iteration env s = .next s1 ∨ iteration env s = .returned s1 →
        s1.exit.cap = s.exit.cap ∧ s1.exit.pending ≤ 1) := by
  constructor
  · intro h s1 hi
    obtain ⟨_, hp0, hs⟩ := iteration_halted env s s1 h hi
    rw [send_of_room s.exit (by omega)] at hs
    cases hs
  · intro s1 hi
    rcases hi with hi | hi
    · obtain ⟨hp0, hcases⟩ := iteration_next env s s1 hi
      rcases hcases with ⟨_, he⟩ | ⟨input, _, he | ⟨_, hs⟩⟩
      · rw [he]; exact ⟨rfl, hp⟩
      · rw [he]; exact ⟨rfl, hp⟩
      · rw [send_of_room s.exit (by omega)] at hs
        simp only [Option.some.injEq] at hs
        rw [← hs]
        exact ⟨rfl, by simp [hp0]⟩
    · obtain ⟨_, hs1⟩ := iteration_returned env s s1 hi
      rw [hs1]
      exact ⟨rfl, by simp only; omega⟩

theorem runLoop_invariant (env : Env) (fuel : Nat) (s : Loop) (hc : 1 ≤ s.exit.cap)
    (hp : s.exit.pending ≤ 1) :
    (∀ h s1, runLoop env fuel s ≠ .halted h s1) ∧
      (∀ s1, runLoop env fuel s = .next s1 ∨ runLoop env fuel s = .returned s1 →
        s1.exit.cap = s.exit.cap ∧ s1.exit.pending ≤ 1) := by
  induction fuel generalizing s with
  | zero =>
    refine ⟨fun h s1 hr => (by simp [runLoop] at hr), fun s1 hr => ?_⟩
    simp only [runLoop, Outcome.next.injEq, reduceCtorEq, or_false] at hr
    rw [← hr]
    exact ⟨rfl, hp⟩
  | succ n ih =>
    obtain ⟨hno, hstep⟩ := iteration_invariant env s hc hp
    unfold runLoop
    cases hi : iteration env s with
    | halted h s2 => exact absurd hi (hno h s2)
    | returned s2 =>
      refine ⟨fun h s1 hr => (by cases hr), fun s1 hr => ?_⟩
      simp only [reduceCtorEq, Outcome.returned.injEq, false_or] at hr
      rw [← hr]
      exact hstep s2 (Or.inr hi)
    | next s2 =>
      obtain ⟨hc2, hp2⟩ := hstep s2 (Or.inl hi)
      obtain ⟨ih1, ih2⟩ := ih s2 (by omega) hp2
      refine ⟨ih1, fun s1 hr => ?_⟩
      obtain ⟨h1, h2⟩ := ih2 s1 hr
      exact ⟨by rw [h1, hc2], h2⟩

theorem runLoop_add_returned (env : Env) (n m : Nat) (s s1 : Loop)
    (h : runLoop env n s = .returned s1) : runLoop env (n + m) s = .returned s1 := by
  induction n generalizing s with
  | zero => simp [runLoop] at h
  | succ k ih =>
    rw [show k + 1 + m = (k + m) + 1 by omega]
    unfold runLoop at h ⊢
    cases hi : iteration env s with
    | halted hl s2 => rw [hi] at h; cases h
    | returned s2 => rw [hi] at h; exact h
    | next s2 =>
      rw [hi] at h
      exact ih s2 h

/-! ## The claims about the loop -/

/-- C1. Started with an empty exit channel of any capacity, in any surroundings,
`runLoop` returns only after `handleInput` was given an input whose command
name is `exit`; a pass of the loop that starts with the channel empty never
returns, whatever fails in it, and leaves a signal in the channel only when
it handled such an input. -/
theorem runLoop_returns_only_after_exit (env : Env) (w0 : World) (cap : Nat) :
    (∀ fuel s1, runLoop env fuel (Loop.start w0 cap) = .returned s1 →
      ∃ line ∈ s1.handled, commandName line = "exit".toList) ∧
    (∀ s : Loop, s.exit.pending = 0 →
      (∀ s1, iteration env s ≠ .returned s1) ∧
      (∀ s1, iteration env s = .next s1 → 0 < s1.exit.pending →
        ∃ input, s1.handled = s.handled ++ [input] ∧
          commandName input = "exit".toList)) := by
  refine ⟨fun fuel s1 h => ?_, fun s hp => ⟨fun s1 hi => ?_, fun s1 hi hpos => ?_⟩⟩
  · exact runLoop_returned_exit_handled env fuel _ s1
      (fun hpos => absurd hpos (by simp [Loop.start])) h
  · have := (iteration_returned env s s1 hi).1
    omega
  · obtain ⟨_, hcases⟩ := iteration_next env s s1 hi
    rcases hcases with ⟨_, he⟩ | ⟨input, hh, he | ⟨hn, _⟩⟩
    · rw [he] at hpos; omega
    · rw [he] at hpos; omega
    · exact ⟨input, hh, hn⟩

/-- C1, on a sample run: with the input `exit` the loop returns in its second pass,
and the input it handled has the command name `exit`. -/
theorem runLoop_returns_only_after_exit_witness :
    runLoop (sampleEnv ["exit".toList] [] true) 2 (Loop.start World.empty 2)
      = .returned
          { world :=
              { log := [.userCurrent, .getwd], reads := 1,
                out := ["/home/gopher [gopher] $ ".toList, "exiting gracefully...\n".toList],
                errOut := [] }
            exit := { cap := 2, pending := 0 }
            handled := ["exit\n".toList] } ∧
    ∃ line ∈ ["exit\n".toList], commandName line = "exit".toList :=
  ⟨rfl,
   (runLoop_returns_only_after_exit (sampleEnv ["exit".toList] [] true) World.empty 2).1 2
      { world :=
          { log := [.userCurrent, .getwd], reads := 1,
            out := ["/home/gopher [gopher] $ ".toList, "exiting gracefully...\n".toList],
            errOut := [] }
        exit := { cap := 2, pending := 0 }
        handled := ["exit\n".toList] } rfl⟩

/-- C6. From an empty exit channel of capacity 2, in any surroundings, `runLoop`
never blocks or panics and every state it reaches holds at most one pending
signal, so in every such state the send of the `exit` builtin completes. A
pass that hands a line with the command name `exit` to `handleInput` leaves
one signal, and the next pass writes the farewell and returns; so when the
first pass renders the prompt and reads such a line, `runLoop` returns in its
second pass, having handled that one line only, whatever follows it in the
input. -/
theorem exit_channel_holds_at_most_one (env : Env) (w0 : World) :
    (∀ fuel h s, runLoop env fuel (Loop.start w0 2) ≠ .halted h s) ∧
    (∀ fuel s,
      runLoop env fuel (Loop.start w0 2) = .next s ∨
        runLoop env fuel (Loop.start w0 2) = .returned s →
      s.exit.cap = 2 ∧ s.exit.pending ≤ 1 ∧
        ∀ w line, commandName line = "exit".toList →
          handleInput env w line s.exit
            = .ok (w, { s.exit with pending := s.exit.pending + 1 }, none)) ∧
    (∀ (s s1 : Loop) line, s.exit.cap = 2 → iteration env s = .next s1 →
      s1.handled = s.handled ++ [line] → commandName line = "exit".toList →
      s1.exit = { cap := 2, pending := 1 } ∧
        iteration env s1
          = .returned
              { world := (Fprint env s1.world farewell).1
                exit := { cap := 2, pending := 0 }
                handled := s1.handled }) ∧
    (∀ line, (printPrompt env w0).2 = none → env.readString w0.reads = (line, none) →
      commandName line = "exit".toList →
      runLoop env 1 (Loop.start w0 2)
          = .next
              { world := { (printPrompt env w0).1 with reads := w0.reads + 1 }
                exit := { cap := 2, pending := 1 }
                handled := [line] } ∧
        ∀ fuel, runLoop env (2 + fuel) (Loop.start w0 2)
          = .returned
              { world :=
                  (Fprint env { (printPrompt env w0).1 with reads := w0.reads + 1 } farewell).1
                exit := { cap := 2, pending := 0 }
                handled := [line] }) := by
  have hinv := fun fuel =>
    runLoop_invariant env fuel (Loop.start w0 2) (by simp [Loop.start]) (by simp [Loop.start])
  refine ⟨fun fuel => (hinv fuel).1, fun fuel s hs => ?_,
    fun s s1 line hcap hi hh hname => ?_, fun line hprompt hread hname => ?_⟩
  · obtain ⟨hc, hp⟩ := (hinv fuel).2 s hs
    have hc2 : s.exit.cap = 2 := by rw [hc]; rfl
    refine ⟨hc2, hp, fun w line hname => ?_⟩
    rw [handleInput_exit env w line s.exit hname, send_of_room s.exit (by omega)]
  · have hp0 := (iteration_next env s s1 hi).1
    have hexit : s1.exit = { cap := 2, pending := 1 } := by
      rcases iteration_next_handled env s s1 hi with ⟨hsame, _⟩ | ⟨input, w2, w3, e, hin, hok⟩
      · rw [hsame] at hh
        have := congrArg List.length hh
        simp at this
      · have hline : input = line := by
          rw [hin] at hh
          simpa using hh
        subst hline
        rw [handleInput_exit env w2 input s.exit hname,
          send_of_room s.exit (by omega)] at hok
        simp only [Except.ok.injEq, Prod.mk.injEq] at hok
        rw [← hok.2.1, hp0, ← hcap]
    refine ⟨hexit, ?_⟩
    rw [iteration_pending env s1 (by rw [hexit]; decide), hexit]
    rfl
  · have h1 : iteration env (Loop.start w0 2)
        = .next
            { world := { (printPrompt env w0).1 with reads := w0.reads + 1 }
              exit := { cap := 2, pending := 1 }
              handled := [line] } := by
      rw [iteration_handle env (Loop.start w0 2) line rfl hprompt hread,
        handleInput_exit env _ line _ hname]
      rfl
    have h2 : runLoop env 2 (Loop.start w0 2)
        = .returned
            { world :=
                (Fprint env { (printPrompt env w0).1 with reads := w0.reads + 1 } farewell).1
              exit := { cap := 2, pending := 0 }
              handled := [line] } := by
      rw [runLoop, h1]
      simp only
      rw [runLoop, iteration_pending env _ (by simp)]
      rfl
    refine ⟨?_, fun fuel => runLoop_add_returned env 2 fuel _ _ h2⟩
    rw [runLoop, h1]
    rfl

/-- C6, on a sample run: with the input of two lines `exit` the first pass hands the
first line to `handleInput`, and the second pass writes the farewell and
returns with the second line unread. -/
theorem exit_channel_holds_at_most_one_witness :
    (printPrompt (sampleEnv ["exit".toList, "exit".toList] [] true) World.empty).2 = none ∧
    (sampleEnv ["exit".toList, "exit".toList] [] true).readString 0 = ("exit\n".toList, none) ∧
    (sampleEnv ["exit".toList, "exit".toList] [] true).readString 1 = ("exit\n".toList, none) ∧
    runLoop (sampleEnv ["exit".toList, "exit".toList] [] true) 2 (Loop.start World.empty 2)
      = .returned
          { world :=
              { log := [.userCurrent, .getwd], reads := 1,
                out := ["/home/gopher [gopher] $ ".toList, "exiting gracefully...\n".toList],
                errOut := [] }
            exit := { cap := 2, pending := 0 }
            handled := ["exit\n".toList] } :=
  ⟨rfl, rfl, rfl,
   ((exit_channel_holds_at_most_one
      (sampleEnv ["exit".toList, "exit".toList] [] true) World.empty).2.2.2
      "exit\n".toList rfl rfl rfl).2 0⟩

/-- C10, as stated, fails where the prompt cannot be rendered: with the input
exhausted, the exit channel empty and the user unknown, the pass writes the
error of the user lookup to the error stream, not the read error `EOF`, and
does not render the prompt or read at all. -/
theorem exhausted_input_prompt_failure :
    (∀ k, (sampleEnv [] [] false).readString k = ([], some "EOF".toList)) ∧
    iteration (sampleEnv [] [] false) (Loop.start World.empty 2)
      = .next
          { world :=
              { log := [.userCurrent], reads := 0, out := [],
                errOut := ["user: unknown userid 1000\n".toList] }
            exit := { cap := 2, pending := 0 }
            handled := [] } ∧
    ["user: unknown userid 1000\n".toList] ≠ ["EOF\n".toList] :=
  ⟨fun k => by simp [sampleEnv], rfl, by decide⟩

/-- C10, amended. When every read returns an error and the exit channel is empty,
`runLoop` never returns: after any number of passes the loop is still running
with the channel empty and nothing handled. Each pass from an empty channel
goes back to the `select` with the channel and the handled inputs unchanged
and one more line on the error stream: the read error when the prompt was
rendered (one more read is then consumed), the error of the prompt when it
was not (no read is then made). -/
theorem runLoop_never_returns_on_exhausted_input (env : Env) (w0 : World) (cap : Nat)
    (hread : ∀ k, ∃ t e, env.readString k = (t, some e)) :
    (∀ fuel, ∃ s, runLoop env fuel (Loop.start w0 cap) = .next s ∧
      s.exit = { cap := cap, pending := 0 } ∧ s.handled = []) ∧
    (∀ s : Loop, s.exit.pending = 0 →
      ∃ s1, iteration env s = .next s1 ∧ s1.exit = s.exit ∧ s1.handled = s.handled ∧
        ((printPrompt env s.world).2 = none →
          ∃ t e, env.readString s.world.reads = (t, some e) ∧
            s1.world = { (printPrompt env s.world).1 with
              reads := s.world.reads + 1
              errOut := s.world.errOut ++ [e ++ "\n".toList] }) ∧
        (∀ e, (printPrompt env s.world).2 = some e →
          s1.world = { (printPrompt env s.world).1 with
            errOut := s.world.errOut ++ [e ++ "\n".toList] })) := by
  have hstep : ∀ s : Loop, s.exit.pending = 0 →
      ∃ s1, iteration env s = .next s1 ∧ s1.exit = s.exit ∧ s1.handled = s.handled ∧
        ((printPrompt env s.world).2 = none →
          ∃ t e, env.readString s.world.reads = (t, some e) ∧
            s1.world = { (printPrompt env s.world).1 with
              reads := s.world.reads + 1
              errOut := s.world.errOut ++ [e ++ "\n".toList] }) ∧
        (∀ e, (printPrompt env s.world).2 = some e →
          s1.world = { (printPrompt env s.world).1 with
            errOut := s.world.errOut ++ [e ++ "\n".toList] }) := by
    intro s hp
    have hf := printPrompt_frame env s.world
    cases hpp : (printPrompt env s.world).2 with
    | some e =>
      refine ⟨_, iteration_prompt_error env s e hp hpp, rfl, rfl, fun h => (by cases h),
        fun e1 he1 => ?_⟩
      simp only [Option.some.injEq] at he1
      subst he1
      simp only [FprintErr, hf.2]
    | none =>
      obtain ⟨t, e, hte⟩ := hread s.world.reads
      refine ⟨_, iteration_read_error env s t e hp hpp hte, rfl, rfl,
        fun _ => ⟨t, e, hte, ?_⟩, fun e1 he1 => (by cases he1)⟩
      simp only [FprintErr, hf.2]
  refine ⟨fun fuel => ?_, hstep⟩
  have hgen : ∀ (n : Nat) (s : Loop), s.exit.pending = 0 →
      ∃ s1, runLoop env n s = .next s1 ∧ s1.exit = s.exit ∧ s1.handled = s.handled := by
    intro n
    induction n with
    | zero => exact fun s _ => ⟨s, rfl, rfl, rfl⟩
    | succ k ih =>
      intro s hp
      obtain ⟨s1, hi, he, hh, _⟩ := hstep s hp
      obtain ⟨s2, hr, he2, hh2⟩ := ih s1 (by rw [he]; exact hp)
      refine ⟨s2, ?_, by rw [he2, he], by rw [hh2, hh]⟩
      rw [runLoop, hi]
      exact hr
  obtain ⟨s1, hr, he, hh⟩ := hgen fuel (Loop.start w0 cap) rfl
  exact ⟨s1, hr, he, hh⟩

/-- C10, on a sample run: with an empty input every read fails with `EOF`, and the
loop is still running, with nothing handled, after any number of passes. -/
theorem runLoop_never_returns_on_exhausted_input_witness :
    (∀ k, ∃ t e, (sampleEnv [] [] true).readString k = (t, some e)) ∧
    ∀ fuel, ∃ s, runLoop (sampleEnv [] [] true) fuel (Loop.start World.empty 2) = .next s ∧
      s.exit = { cap := 2, pending := 0 } ∧ s.handled = [] :=
  ⟨fun k => ⟨[], "EOF".toList, by simp [sampleEnv]⟩,
   (runLoop_never_returns_on_exhausted_input (sampleEnv [] [] true) World.empty 2
      (fun k => ⟨[], "EOF".toList, by simp [sampleEnv]⟩)).1⟩

/-! ## The claims about the handlers -/

/-- C2. For every argument list `echo` makes exactly one write on `w`, of
`strings.Join(args, " ")` followed by one newline, changes nothing else, and
returns the error of that write, so no error when the write succeeds; and
`handleInput` on the line `echo a b` writes exactly `a b\n`. -/
theorem echo_writes_joined_args (env : Env) (s : World) (exit : Chan)
    (args : List GoString) :
    echo env s args
      = ({ s with out := s.out ++ [Join args " ".toList ++ "\n".toList] },
          env.write s.out.length) ∧
    (env.write s.out.length = none → (echo env s args).2 = none) ∧
    handleInput env s "echo a b".toList exit
      = .ok ({ s with out := s.out ++ ["a b\n".toList] }, exit, env.write s.out.length) ∧
    handleInput env s "echo a b\n".toList exit
      = .ok ({ s with out := s.out ++ ["a b\n".toList] }, exit, env.write s.out.length) :=
  ⟨rfl, fun h => h, rfl, rfl⟩

/-- C2, on a sample: `echo` with the arguments `a` and `b`, the write succeeding,
writes `a b\n` and returns no error. -/
theorem echo_writes_joined_args_witness :
    (sampleEnv [] [] true).write 0 = none ∧
    echo (sampleEnv [] [] true) World.empty ["a".toList, "b".toList]
      = ({ World.empty with out := ["a b\n".toList] }, none) :=
  ⟨rfl, (echo_writes_joined_args (sampleEnv [] [] true) World.empty
      { cap := 2, pending := 0 } ["a".toList, "b".toList]).1⟩

/-- C7, as stated, fails in two places. For the line `echo  a`, that is `echo `
followed by the rest ` a`, the text written is ` a\n`, with the leading space
of the rest kept, while the trimmed rest and a newline is `a\n`. And for the
line `pwd x` the remaining token `x` is not handed on: the handler of `pwd`
takes no arguments, and the call is the same as for `pwd` alone. -/
theorem echo_keeps_leading_space_of_rest :
    handleInput (sampleEnv [] [] true) World.empty ("echo ".toList ++ " a".toList)
        { cap := 2, pending := 0 }
      = .ok ({ World.empty with out := [" a\n".toList] }, { cap := 2, pending := 0 }, none) ∧
    TrimSpace " a".toList ++ "\n".toList = "a\n".toList ∧
    " a\n".toList ≠ TrimSpace " a".toList ++ "\n".toList ∧
    commandName "pwd x".toList = "pwd".toList ∧
    commandArgs "pwd x".toList = ["x".toList] ∧
    handleInput (sampleEnv [] [] true) World.empty "pwd x".toList { cap := 2, pending := 0 }
      = keep { cap := 2, pending := 0 }
          (printWorkingDirectory (sampleEnv [] [] true) World.empty) ∧
    handleInput (sampleEnv [] [] true) World.empty "pwd x".toList { cap := 2, pending := 0 }
      = handleInput (sampleEnv [] [] true) World.empty "pwd".toList
          { cap := 2, pending := 0 } :=
  ⟨rfl, rfl, by decide, rfl, rfl, rfl, rfl⟩

/-- C7, amended. For every input line `handleInput` works on the line without its
leading and trailing white space, cut at every single space: the pieces hold
no space, joined by single spaces they give back the trimmed line (and they
are the only such pieces), the first is the command name and the others, in
order, are the arguments the handler receives, except for `pwd` and `exit`,
whose handlers take no arguments, so that the other pieces are dropped. Runs
of spaces are not collapsed: `echo a  b` passes `a`, the empty string and `b`,
and writes `a  b\n`; for the line `echo ` followed by `rest` the output is
`rest` without its trailing white space, its leading white space kept, and a
newline; and whenever the trimmed line is `echo ` followed by `rest` the
output is `rest` unchanged and a newline. -/
theorem handleInput_splits_on_single_spaces (env : Env) (s : World) (exit : Chan)
    (line : GoString) :
    (∃ l r, line = l ++ TrimSpace line ++ r ∧ (∀ c ∈ l, isSpace c = true) ∧
      (∀ c ∈ r, isSpace c = true)) ∧
    (∀ c, (TrimSpace line).head? = some c → isSpace c = false) ∧
    (∀ c, (TrimSpace line).getLast? = some c → isSpace c = false) ∧
    Split (TrimSpace line) ' ' = commandName line :: commandArgs line ∧
    Join (commandName line :: commandArgs line) " ".toList = TrimSpace line ∧
    (∀ t ∈ commandName line :: commandArgs line, ' ' ∉ t) ∧
    (∀ toks, toks ≠ [] → (∀ t ∈ toks, ' ' ∉ t) → Join toks " ".toList = TrimSpace line →
      toks = commandName line :: commandArgs line) ∧
    (commandName line = "cd".toList →
      handleInput env s line exit = keep exit (changeDirectory env s (commandArgs line))) ∧
    (commandName line = "env".toList →
      handleInput env s line exit
        = keep exit (environmentVariables env s (commandArgs line))) ∧
    (commandName line = "ls".toList →
      handleInput env s line exit = keep exit (listFiles env s (commandArgs line))) ∧
    (commandName line = "alloc".toList →
      handleInput env s line exit = keep exit (allocateMemory env s (commandArgs line))) ∧
    (commandName line = "echo".toList →
      handleInput env s line exit = keep exit (echo env s (commandArgs line))) ∧
    (commandName line = "help".toList →
      handleInput env s line exit = keep exit (showHelp env s (commandArgs line))) ∧
    (commandName line ∉ commandNames →
      handleInput env s line exit
        = keep exit (executeCommand env s (commandName line) (commandArgs line))) ∧
    (commandName line = "pwd".toList →
      handleInput env s line exit = keep exit (printWorkingDirectory env s)) ∧
    (commandName line = "exit".toList →
      handleInput env s line exit
        = match exit.send with
          | none => .error .blocked
          | some c => .ok (s, c, none)) ∧
    commandName "echo a  b".toList = "echo".toList ∧
    commandArgs "echo a  b".toList = ["a".toList, [], "b".toList] ∧
    handleInput env s "echo a  b".toList exit
      = .ok ({ s with out := s.out ++ ["a  b\n".toList] }, exit, env.write s.out.length) ∧
    commandName "  echo a\n".toList = "echo".toList ∧
    commandArgs "  echo a\n".toList = ["a".toList] ∧
    (∀ rest, TrimSpace line = "echo ".toList ++ rest →
      handleInput env s line exit
        = .ok ({ s with out := s.out ++ [rest ++ "\n".toList] }, exit,
            env.write s.out.length)) ∧
    (∀ rest, handleInput env s ("echo ".toList ++ rest) exit
        = .ok ({ s with out := s.out ++ [TrimRight rest ++ "\n".toList] }, exit,
            env.write s.out.length)) := by
  refine ⟨TrimSpace_decomp line, TrimSpace_head line, TrimSpace_getLast line,
    Split_eq_name_args line, ?_, ?_, ?_, handleInput_cd env s line exit,
    handleInput_env env s line exit, handleInput_ls env s line exit,
    handleInput_alloc env s line exit, handleInput_echo env s line exit,
    handleInput_help env s line exit, handleInput_other env s line exit,
    handleInput_pwd env s line exit, handleInput_exit env s line exit, rfl, rfl, rfl,
    rfl, rfl, fun rest h => handleInput_echo_trimmed env s exit line rest h,
    fun rest => handleInput_echo_rest env s exit rest⟩
  · rw [← Split_eq_name_args]
    exact Join_Split _ ' '
  · rw [← Split_eq_name_args]
    exact Split_no_sep _ ' '
  · intro toks hne hno hj
    rw [← Split_eq_name_args, ← hj]
    exact (Split_Join toks ' ' hne hno).symm

/-- C7, amended, on a sample: the line `  echo  a b ` followed by a newline is
trimmed to `echo  a b`, and `handleInput` writes ` a b\n`, the text after
`echo ` unchanged. -/
theorem handleInput_splits_on_single_spaces_witness :
    TrimSpace "  echo  a b \n".toList = "echo ".toList ++ " a b".toList ∧
    handleInput (sampleEnv [] [] true) World.empty "  echo  a b \n".toList
        { cap := 2, pending := 0 }
      = .ok ({ World.empty with out := [" a b\n".toList] }, { cap := 2, pending := 0 }, none) :=
  ⟨rfl, (handleInput_splits_on_single_spaces (sampleEnv [] [] true) World.empty
      { cap := 2, pending := 0 }
      "  echo  a b \n".toList).2.2.2.2.2.2.2.2.2.2.2.2.2.2.2.2.2.2.2.2.2.1
      " a b".toList rfl⟩

/-- C4. For every non-empty argument list `showHelp` returns no error and looks at
the first argument only: for a key of `commandHelp` it writes exactly
`Help for <name>:\n<description>\n` with the description of that key, for any
other name exactly `Unknown command: <name>\n`. Through `handleInput` the exit
channel is left as it was, and a pass of the loop that reads such a line goes
back to the `select` with the channel unchanged and nothing written to the
error stream. -/
theorem showHelp_one_command (env : Env) (s : World) (cmd : GoString)
    (rest : List GoString) :
    (showHelp env s (cmd :: rest)).2 = none ∧
    showHelp env s (cmd :: rest) = showHelp env s [cmd] ∧
    (∀ desc, (cmd, desc) ∈ commandHelp →
      (showHelp env s (cmd :: rest)).1
        = { s with out := s.out ++
              ["Help for ".toList ++ cmd ++ ":\n".toList ++ desc ++ "\n".toList] }) ∧
    (cmd ∉ commandNames →
      (showHelp env s (cmd :: rest)).1
        = { s with out := s.out ++ ["Unknown command: ".toList ++ cmd ++ "\n".toList] }) ∧
    (cmd ∈ commandNames ↔ ∃ desc, (cmd, desc) ∈ commandHelp) ∧
    (∀ line exit, commandName line = "help".toList → commandArgs line = cmd :: rest →
      handleInput env s line exit = .ok ((showHelp env s (cmd :: rest)).1, exit, none)) ∧
    (∀ (l : Loop) line, l.exit.pending = 0 → (printPrompt env l.world).2 = none →
      env.readString l.world.reads = (line, none) →
      commandName line = "help".toList → commandArgs line = cmd :: rest →
      ∃ l1, iteration env l = .next l1 ∧ l1.exit = l.exit ∧
        l1.world.errOut = l.world.errOut ∧ l1.handled = l.handled ++ [line]) ∧
    handleInput env s "help unknown_cmd".toList { cap := 2, pending := 0 }
      = .ok ({ s with out := s.out ++ ["Unknown command: unknown_cmd\n".toList] },
          { cap := 2, pending := 0 }, none) ∧
    handleInput env s "help cd".toList { cap := 2, pending := 0 }
      = .ok ({ s with out := s.out ++
                ["Help for cd:\nChange the current working directory\n".toList] },
          { cap := 2, pending := 0 }, none) := by
  have herr : ∀ w : World, (showHelp env w (cmd :: rest)).2 = none := by
    intro w
    unfold showHelp
    simp only
    split <;> rfl
  refine ⟨herr s, ?_, ?_, ?_, ?_, ?_, ?_, rfl, rfl⟩
  · rfl
  · intro desc hmem
    simp only [showHelp, lookup_of_mem cmd desc hmem, Fprint]
  · intro hmem
    simp only [showHelp, lookup_of_not_mem cmd hmem, Fprint]
  · simp only [commandNames, List.mem_map, Prod.exists, exists_and_right, exists_eq_right]
  · intro line exit hn ha
    rw [handleInput_help env s line exit hn, ha, keep, herr s]
  · intro l line hp hprompt hread hn ha
    have hf := printPrompt_frame env l.world
    rw [iteration_handle env l line hp hprompt hread, handleInput_help env _ line _ hn, ha,
      keep, herr]
    refine ⟨_, rfl, rfl, ?_, rfl⟩
    show (showHelp env _ (cmd :: rest)).1.errOut = l.world.errOut
    rw [← hf.2]
    unfold showHelp
    simp only
    split <;> rfl

/-- C4, on a sample: `help ls x` writes the help of `ls` and ignores `x`. -/
theorem showHelp_one_command_witness :
    ("ls".toList, "List files in the current directory".toList) ∈ commandHelp ∧
    (showHelp (sampleEnv [] [] true) World.empty ["ls".toList, "x".toList]).1
      = { World.empty with
          out := ["Help for ls:\nList files in the current directory\n".toList] } :=
  ⟨by decide,
   (showHelp_one_command (sampleEnv [] [] true) World.empty "ls".toList ["x".toList]).2.2.1
      "List files in the current directory".toList (by decide)⟩

/-- C5. With any argument `allocateMemory` returns the usage error and leaves the
world as it was: nothing is written and `mem.VirtualMemory` is not called. With
no argument it calls `mem.VirtualMemory` exactly once and either returns its
error, writing nothing, or makes the one write `Total: <total>, Free: <free>\n`
and returns the error of that write. -/
theorem allocateMemory_usage_or_stats (env : Env) (s : World) (args : List GoString) :
    (args ≠ [] →
      allocateMemory env s args = (s, some "Usage: Alloc".toList) ∧
      (allocateMemory env s args).1.out = s.out ∧
      memoryCalls (allocateMemory env s args).1.log = memoryCalls s.log) ∧
    (args = [] →
      memoryCalls (allocateMemory env s args).1.log = memoryCalls s.log + 1 ∧
      (∀ e, env.virtualMemory s.log.length = .error e →
        allocateMemory env s args = ({ s with log := s.log ++ [.virtualMemory] }, some e)) ∧
      (∀ total free, env.virtualMemory s.log.length = .ok (total, free) →
        allocateMemory env s args
          = ({ s with
                log := s.log ++ [.virtualMemory]
                out := s.out ++
                  ["Total: ".toList ++ fmtUint total ++ ", Free: ".toList ++ fmtUint free
                    ++ "\n".toList] },
              env.write s.out.length))) ∧
    "Total: ".toList ++ fmtUint 17179869184 ++ ", Free: ".toList ++ fmtUint 8589934592
        ++ "\n".toList
      = "Total: 17179869184, Free: 8589934592\n".toList := by
  refine ⟨fun hne => ?_, fun hnil => ?_, by decide⟩
  · have hlen : args.length ≠ 0 := by
      intro h
      exact hne (List.length_eq_zero.mp h)
    have h : allocateMemory env s args = (s, some "Usage: Alloc".toList) := by
      unfold allocateMemory
      rw [if_pos hlen]
    rw [h]
    exact ⟨rfl, rfl, rfl⟩
  · subst hnil
    refine ⟨?_, fun e he => ?_, fun total free hok => ?_⟩
    · unfold allocateMemory
      simp only [List.length_nil, ne_eq, not_true_eq_false, if_false]
      split
      · simp [World.call, memoryCalls]
      · simp [World.call, memoryCalls, Fprint]
    · simp only [allocateMemory, List.length_nil, ne_eq, not_true_eq_false, if_false, he,
        World.call]
    · simp only [allocateMemory, List.length_nil, ne_eq, not_true_eq_false, if_false, hok,
        World.call, Fprint]

/-- C5, on a sample: with the argument `x` the usage error is returned and nothing
else happens; with no argument the statistics are written. -/
theorem allocateMemory_usage_or_stats_witness :
    allocateMemory (sampleEnv [] [] true) World.empty ["x".toList]
      = (World.empty, some "Usage: Alloc".toList) ∧
    allocateMemory (sampleEnv [] [] true) World.empty []
      = ({ World.empty with
            log := [.virtualMemory]
            out := ["Total: 17179869184, Free: 8589934592\n".toList] }, none) :=
  ⟨((allocateMemory_usage_or_stats (sampleEnv [] [] true) World.empty ["x".toList]).1
      (by decide)).1,
   ((allocateMemory_usage_or_stats (sampleEnv [] [] true) World.empty []).2.1 rfl).2.2
      17179869184 8589934592 rfl⟩

theorem runs_append_single (log : List Event) (e : Event)
    (h : ∀ name arg, e ≠ .run name arg) : runs (log ++ [e]) = runs log := by
  unfold runs
  rw [List.filterMap_append]
  cases e <;> simp at h ⊢

theorem listFiles_runs (env : Env) (s : World) (args : List GoString) :
    runs (listFiles env s args).1.log = runs s.log := by
  unfold listFiles
  split
  · exact runs_append_single _ _ (by simp)
  · simp only
    split
    · simp only [World.call]
      rw [runs_append_single _ _ (by simp), runs_append_single _ _ (by simp),
        runs_append_single _ _ (by simp)]
    · simp only [foldl_Fprint]
      simp only [Fprint, World.call]
      rw [runs_append_single _ _ (by simp), runs_append_single _ _ (by simp),
        runs_append_single _ _ (by simp)]

theorem showHelp_log (env : Env) (s : World) (args : List GoString) :
    (showHelp env s args).1.log = s.log := by
  cases args with
  | nil => rw [showHelp_nil]
  | cons cmd rest =>
    unfold showHelp
    simp only
    split <;> rfl

theorem allocateMemory_runs (env : Env) (s : World) (args : List GoString) :
    runs (allocateMemory env s args).1.log = runs s.log := by
  unfold allocateMemory
  split
  · rfl
  · split
    · exact runs_append_single _ _ (by simp)
    · exact runs_append_single _ _ (by simp)

theorem printWorkingDirectory_runs (env : Env) (s : World) :
    runs (printWorkingDirectory env s).1.log = runs s.log := by
  unfold printWorkingDirectory
  split
  · exact runs_append_single _ _ (by simp)
  · exact runs_append_single _ _ (by simp)

/-- C9, as stated, fails on every listing that is not empty: for the entries `a`
and `b` the text written is `a\tb\t\n`, with a tab after the last name too, and
not the names separated by tabs, `a\tb\n`. -/
theorem listFiles_tab_after_last_name :
    (sampleEnv [] ["a".toList, "b".toList] true).openDir 0 = none ∧
    (sampleEnv [] ["a".toList, "b".toList] true).readdir 1
      = (["a".toList, "b".toList], none) ∧
    (listFiles (sampleEnv [] ["a".toList, "b".toList] true) World.empty []).1.output
      = "a\tb\t\n".toList ∧
    (listFiles (sampleEnv [] ["a".toList, "b".toList] true) World.empty []).1.output
      ≠ Join ["a".toList, "b".toList] "\t".toList ++ "\n".toList := by
  decide

/-- C9, amended. For every listing the operating system returns and every argument
list, `listFiles` writes each name, in listing order, followed by a tab (so a
tab follows the last name too), then one newline, and returns no error,
whatever the writes return; when opening or reading the directory fails it
returns that error and writes nothing. -/
theorem listFiles_writes_each_name_and_tab (env : Env) (s : World)
    (args : List GoString) :
    (∀ names, env.openDir s.log.length = none →
      env.readdir (s.log.length + 1) = (names, none) →
      listFiles env s args
          = ({ s with
                log := s.log ++ [.openDir, .readdir, .closeDir]
                out := s.out ++ (names.map (fun name => name ++ "\t".toList) ++ ["\n".toList]) },
              none) ∧
        (names.map (fun name => name ++ "\t".toList) ++ ["\n".toList]).flatten
          = (names.map (fun name => name ++ "\t".toList)).flatten ++ "\n".toList) ∧
    (∀ e, env.openDir s.log.length = some e →
      listFiles env s args = ({ s with log := s.log ++ [.openDir] }, some e)) ∧
    (∀ e names, env.openDir s.log.length = none →
      env.readdir (s.log.length + 1) = (names, some e) →
      listFiles env s args
        = ({ s with log := s.log ++ [.openDir, .readdir, .closeDir] }, some e)) := by
  refine ⟨fun names ho hr => ⟨listFiles_ok env s args names ho hr, by simp⟩,
    fun e ho => ?_, fun e names ho hr => ?_⟩
  · simp only [listFiles, ho, World.call]
  · have hr1 : env.readdir (s.call .openDir).log.length = (names, some e) := by
      simpa [World.call] using hr
    simp only [listFiles, ho, hr1]
    simp [World.call]

/-- C9, amended, on a sample: the entries `a` and `b` are written as `a\t`, `b\t`
and a newline. -/
theorem listFiles_writes_each_name_and_tab_witness :
    listFiles (sampleEnv [] ["a".toList, "b".toList] true) World.empty ["-l".toList]
      = ({ World.empty with
            log := [.openDir, .readdir, .closeDir]
            out := ["a\t".toList, "b\t".toList, "\n".toList] }, none) :=
  ((listFiles_writes_each_name_and_tab (sampleEnv [] ["a".toList, "b".toList] true)
      World.empty ["-l".toList]).1 ["a".toList, "b".toList] rfl rfl).1

/-- C8. The function `handleInput` routes by the keys of `commandHelp`, which are
`cd`, `env`, `exit`, `ls`, `pwd`, `alloc`, `echo` and `help`: for a command name
among them one of the eight builtin handlers receives the arguments and no
command is run, and for every other name, the empty name of a blank line
included, the call is `executeCommand` with that name and the remaining
arguments, whose error is returned unchanged. -/
theorem handleInput_routes_by_registry (env : Env) (s : World) (line : GoString)
    (exit : Chan) :
    commandNames
      = ["cd".toList, "env".toList, "exit".toList, "ls".toList, "pwd".toList,
          "alloc".toList, "echo".toList, "help".toList] ∧
    (commandName line ∈ commandNames →
      (handleInput env s line exit = keep exit (changeDirectory env s (commandArgs line)) ∨
        handleInput env s line exit
          = keep exit (environmentVariables env s (commandArgs line)) ∨
        handleInput env s line exit
          = (match exit.send with
              | none => .error .blocked
              | some c => .ok (s, c, none)) ∨
        handleInput env s line exit = keep exit (listFiles env s (commandArgs line)) ∨
        handleInput env s line exit = keep exit (printWorkingDirectory env s) ∨
        handleInput env s line exit = keep exit (allocateMemory env s (commandArgs line)) ∨
        handleInput env s line exit = keep exit (echo env s (commandArgs line)) ∨
        handleInput env s line exit = keep exit (showHelp env s (commandArgs line))) ∧
      ∀ w c e, handleInput env s line exit = .ok (w, c, e) → runs w.log = runs s.log) ∧
    (commandName line ∉ commandNames →
      handleInput env s line exit
        = .ok ({ s with log := s.log ++ [.run (commandName line) (commandArgs line)] }, exit,
            env.run s.log.length (commandName line) (commandArgs line)) ∧
      executeCommand env s (commandName line) (commandArgs line)
        = ({ s with log := s.log ++ [.run (commandName line) (commandArgs line)] },
            env.run s.log.length (commandName line) (commandArgs line)) ∧
      runs (s.log ++ [.run (commandName line) (commandArgs line)])
        = runs s.log ++ [(commandName line, commandArgs line)]) ∧
    ((∃ w c e, handleInput env s line exit = .ok (w, c, e) ∧ runs w.log ≠ runs s.log) ↔
      commandName line ∉ commandNames) ∧
    commandName "\n".toList = [] ∧ commandArgs "\n".toList = [] ∧
    ([] : GoString) ∉ commandNames ∧
    handleInput env s "\n".toList exit
      = .ok ({ s with log := s.log ++ [.run [] []] }, exit, env.run s.log.length [] []) := by
  have hbuiltin : commandName line ∈ commandNames →
      (handleInput env s line exit = keep exit (changeDirectory env s (commandArgs line)) ∨
        handleInput env s line exit
          = keep exit (environmentVariables env s (commandArgs line)) ∨
        handleInput env s line exit
          = (match exit.send with
              | none => .error .blocked
              | some c => .ok (s, c, none)) ∨
        handleInput env s line exit = keep exit (listFiles env s (commandArgs line)) ∨
        handleInput env s line exit = keep exit (printWorkingDirectory env s) ∨
        handleInput env s line exit = keep exit (allocateMemory env s (commandArgs line)) ∨
        handleInput env s line exit = keep exit (echo env s (commandArgs line)) ∨
        handleInput env s line exit = keep exit (showHelp env s (commandArgs line))) ∧
      ∀ w c e, handleInput env s line exit = .ok (w, c, e) → runs w.log = runs s.log := by
    intro hmem
    simp only [commandNames, commandHelp, List.map_cons, List.map_nil, List.mem_cons,
      List.mem_singleton, List.not_mem_nil, or_false] at hmem
    rcases hmem with h | h | h | h | h | h | h | h
    · have hh := handleInput_cd env s line exit h
      refine ⟨Or.inl hh, fun w c e hw => ?_⟩
      rw [hh] at hw
      simp only [keep, changeDirectory, World.call, Except.ok.injEq, Prod.mk.injEq] at hw
      rw [← hw.1]
      exact runs_append_single _ _ (by simp)
    · have hh := handleInput_env env s line exit h
      refine ⟨Or.inr (Or.inl hh), fun w c e hw => ?_⟩
      rw [hh] at hw
      simp only [keep, environmentVariables, World.call, Except.ok.injEq, Prod.mk.injEq] at hw
      rw [← hw.1]
      exact runs_append_single _ _ (by simp)
    · have hh := handleInput_exit env s line exit h
      refine ⟨Or.inr (Or.inr (Or.inl hh)), fun w c e hw => ?_⟩
      rcases handleInput_chan env s line exit w c e hw with hc | ⟨_, _, hws, _⟩
      · rw [hh] at hw
        cases hs : exit.send with
        | none => rw [hs] at hw; cases hw
        | some c1 =>
          rw [hs] at hw
          simp only [Except.ok.injEq, Prod.mk.injEq] at hw
          rw [← hw.1]
      · rw [hws]
    · have hh := handleInput_ls env s line exit h
      refine ⟨Or.inr (Or.inr (Or.inr (Or.inl hh))), fun w c e hw => ?_⟩
      rw [hh] at hw
      simp only [keep, Except.ok.injEq, Prod.mk.injEq] at hw
      rw [← hw.1]
      exact listFiles_runs env s _
    · have hh := handleInput_pwd env s line exit h
      refine ⟨Or.inr (Or.inr (Or.inr (Or.inr (Or.inl hh)))), fun w c e hw => ?_⟩
      rw [hh] at hw
      simp only [keep, Except.ok.injEq, Prod.mk.injEq] at hw
      rw [← hw.1]
      exact printWorkingDirectory_runs env s
    · have hh := handleInput_alloc env s line exit h
      refine ⟨Or.inr (Or.inr (Or.inr (Or.inr (Or.inr (Or.inl hh))))), fun w c e hw => ?_⟩
      rw [hh] at hw
      simp only [keep, Except.ok.injEq, Prod.mk.injEq] at hw
      rw [← hw.1]
      exact allocateMemory_runs env s _
    · have hh := handleInput_echo env s line exit h
      refine ⟨Or.inr (Or.inr (Or.inr (Or.inr (Or.inr (Or.inr (Or.inl hh)))))),
        fun w c e hw => ?_⟩
      rw [hh] at hw
      simp only [keep, echo, Fprint, Except.ok.injEq, Prod.mk.injEq] at hw
      rw [← hw.1]
    · have hh := handleInput_help env s line exit h
      refine ⟨Or.inr (Or.inr (Or.inr (Or.inr (Or.inr (Or.inr (Or.inr hh)))))),
        fun w c e hw => ?_⟩
      rw [hh] at hw
      simp only [keep, Except.ok.injEq, Prod.mk.injEq] at hw
      rw [← hw.1, showHelp_log]
  have hother : commandName line ∉ commandNames →
      handleInput env s line exit
        = .ok ({ s with log := s.log ++ [.run (commandName line) (commandArgs line)] }, exit,
            env.run s.log.length (commandName line) (commandArgs line)) := by
    intro hmem
    rw [handleInput_other env s line exit hmem]
    rfl
  have hruns : runs (s.log ++ [.run (commandName line) (commandArgs line)])
      = runs s.log ++ [(commandName line, commandArgs line)] := by
    simp [runs, List.filterMap_append]
  refine ⟨rfl, hbuiltin, fun hmem => ⟨hother hmem, rfl, hruns⟩, ?_, rfl, rfl, by decide, rfl⟩
  constructor
  · rintro ⟨w, c, e, hw, hne⟩ hmem
    exact hne ((hbuiltin hmem).2 w c e hw)
  · intro hmem
    refine ⟨_, _, _, hother hmem, ?_⟩
    simp only [hruns]
    intro h
    have := congrArg List.length h
    simp at this

/-- C8, on a sample: the line `nosuch -x` names no builtin and is handed to
`executeCommand` with the name `nosuch` and the argument `-x`, whose error comes back. -/
theorem handleInput_routes_by_registry_witness :
    commandName "nosuch -x\n".toList ∉ commandNames ∧
    handleInput (sampleEnv [] [] true) World.empty "nosuch -x\n".toList
        { cap := 2, pending := 0 }
      = .ok ({ World.empty with log := [.run "nosuch".toList ["-x".toList]] },
          { cap := 2, pending := 0 }, some "exec: no command".toList) :=
  ⟨by decide,
   ((handleInput_routes_by_registry (sampleEnv [] [] true) World.empty "nosuch -x\n".toList
      { cap := 2, pending := 0 }).2.2.1 (by decide)).1⟩

/-! ## The listing of `showHelp` -/

theorem helpLine_eq (entry : GoString × GoString) :
    helpLine entry = helpEntry entry ++ ['\n'] := by
  simp [helpLine, helpEntry]

theorem Split_help_lines (l : List (GoString × GoString))
    (h : ∀ e ∈ l, '\n' ∉ helpEntry e) :
    Split (l.map helpLine).flatten '\n' = l.map helpEntry ++ [[]] := by
  induction l with
  | nil => rfl
  | cons e rest ih =>
    rw [List.map_cons, List.flatten_cons, helpLine_eq, List.append_assoc,
      List.singleton_append, Split_append_sep _ _ _ (h e (by simp)),
      ih (fun x hx => h x (by simp [hx]))]
    rfl

theorem wordsAux_append (cur a b : GoString) (c : Char) (hc : isWordRune c = false) :
    wordsAux cur (a ++ c :: b) = wordsAux cur (a ++ [c]) ++ wordsAux [] b := by
  induction a generalizing cur with
  | nil =>
    simp only [List.nil_append, wordsAux, hc]
    by_cases h : cur = [] <;> simp [h]
  | cons x xs ih =>
    simp only [List.cons_append, wordsAux]
    by_cases hx : isWordRune x = true
    · simp only [hx, if_true]
      exact ih _
    · simp only [hx]
      by_cases h : cur = []
      · simp only [h, if_true]
        exact ih _
      · simp only [h, if_false, Bool.false_eq_true, List.cons_append, List.cons.injEq,
          true_and]
        exact ih _

theorem wordsOf_lines (chunks : List GoString)
    (h : ∀ t ∈ chunks, ∃ body, t = body ++ ['\n']) :
    wordsOf chunks.flatten = chunks.flatMap wordsOf := by
  induction chunks with
  | nil => rfl
  | cons t rest ih =>
    obtain ⟨body, hb⟩ := h t (by simp)
    rw [List.flatten_cons, List.flatMap_cons, hb, List.append_assoc, List.singleton_append]
    unfold wordsOf at ih ⊢
    rw [wordsAux_append [] body _ '\n' (by decide), ih (fun x hx => h x (by simp [hx]))]

/-- C3. With no arguments `showHelp` returns no error and writes the heading
`Available commands:` and then one line `  <name>: <description>` for each
entry of `commandHelp`, in the order in which the map is ranged over: the lines
after the heading are as many as the registered builtins, every registered
name labels exactly one of them, and as a word every registered name occurs
exactly once in the whole text written. -/
theorem showHelp_lists_every_command_once (env : Env) (s : World) :
    (showHelp env s []).2 = none ∧
    (showHelp env s []).1
      = { s with out := s.out ++
            "Available commands:\n".toList :: (env.rangeOrder s.log.length).val.map helpLine } ∧
    linesOf (written s (showHelp env s []).1)
      = "Available commands:".toList :: (env.rangeOrder s.log.length).val.map helpEntry ∧
    ((env.rangeOrder s.log.length).val.map helpEntry).length = commandHelp.length ∧
    commandHelp.length = 8 ∧
    ((env.rangeOrder s.log.length).val.map Prod.fst).Perm commandNames ∧
    commandNames.Nodup ∧
    (∀ name ∈ commandNames,
      ((env.rangeOrder s.log.length).val.map Prod.fst).count name = 1) ∧
    (∀ name ∈ commandNames,
      (wordsOf (written s (showHelp env s []).1)).count name = 1) := by
  have hperm := (env.rangeOrder s.log.length).property
  have hwritten : written s (showHelp env s []).1
      = ("Available commands:\n".toList
          :: (env.rangeOrder s.log.length).val.map helpLine).flatten := by
    rw [showHelp_nil]
    simp only [written, List.drop_left]
  have hnames : ((env.rangeOrder s.log.length).val.map Prod.fst).Perm commandNames :=
    hperm.map Prod.fst
  refine ⟨by rw [showHelp_nil], by rw [showHelp_nil], ?_, ?_, rfl, hnames, by decide, ?_, ?_⟩
  · have hno : ∀ e ∈ (env.rangeOrder s.log.length).val, '\n' ∉ helpEntry e := by
      intro e he
      have hall : ∀ e ∈ commandHelp, '\n' ∉ helpEntry e := by decide
      exact hall e (hperm.mem_iff.mp he)
    have hhead : "Available commands:\n".toList = "Available commands:".toList ++ ['\n'] := rfl
    rw [hwritten, List.flatten_cons, hhead, List.append_assoc, List.singleton_append]
    unfold linesOf
    rw [Split_append_sep _ _ _ (by decide), Split_help_lines _ hno, ← List.cons_append,
      List.dropLast_concat]
  · rw [List.length_map, hperm.length_eq]
  · intro name hname
    unfold List.count
    rw [hnames.countP_eq]
    revert name
    decide
  · intro name hname
    have hchunks : ∀ t ∈ "Available commands:\n".toList
        :: (env.rangeOrder s.log.length).val.map helpLine, ∃ body, t = body ++ ['\n'] := by
      intro t ht
      rcases List.mem_cons.mp ht with rfl | ht
      · exact ⟨"Available commands:".toList, rfl⟩
      · obtain ⟨e, _, rfl⟩ := List.mem_map.mp ht
        exact ⟨helpEntry e, helpLine_eq e⟩
    rw [hwritten, wordsOf_lines _ hchunks, List.flatMap_cons, List.count_append,
      List.flatMap_map]
    unfold List.count
    rw [(List.Perm.flatMap_right (fun e => wordsOf (helpLine e)) hperm).countP_eq]
    revert name
    decide

/-- C3, on a sample: ranged over in the order of the source text, the listing holds
the name `env` exactly once as a word. -/
theorem showHelp_lists_every_command_once_witness :
    "env".toList ∈ commandNames ∧
    (wordsOf (written World.empty (showHelp (sampleEnv [] [] true) World.empty []).1)).count
        "env".toList = 1 :=
  ⟨by decide,
   (showHelp_lists_every_command_once (sampleEnv [] [] true) World.empty).2.2.2.2.2.2.2.2
      "env".toList (by decide)⟩

end Shell
